import Mathlib

/-!
Shallow embedding of the goblex buffering lexer (goblex.go, token.go).

Conventions of the embedding:
* A Go rune is modelled as a natural number (its Unicode code point);
  `RuneEOF` is the rune 0, exactly as in the source.
* The `bufio.Reader` over the input string is modelled as the list of
  not-yet-read runes (`input`); `ReadRune` pops its head and an empty list
  plays the role of a read error (end of input).
* The buffered emission channel `make(chan Token, 3)` is modelled as the
  list `tokens` of queued tokens together with the capacity constant
  `tokensCapacity = 3`; a send that would block forever (queue full, no
  concurrent receiver while a step function runs) is modelled by `none`.
* Loops of the source are modelled with an explicit fuel argument that is
  instantiated, at each entry point, with a bound computed from the state
  (number of unread runes plus a constant slack); every loop of the source
  consumes at least one rune per iteration except for a final iteration
  that hits end of input, so the bound is never reached.
* The `Name`, `Debug` and `logIndent` fields and all debug logging are
  omitted: they are purely diagnostic and have no behavioural effect.
* `LexFn` (a step function returning the next step function) would be a
  non-positive recursive type if stored inside the lexer, so the step
  driver `Run` takes the step interpretation and the current step name as
  explicit parameters instead of storing them in the `Lexer` structure.
-/

namespace goblex

/-- A Go rune: a Unicode code point. -/
abbrev Rune := Nat

/-- token.go: `const RuneEOF rune = 0` — the end-of-input sentinel. -/
def RuneEOF : Rune := 0

/-- token.go: `type TokenType int8`.  The claims never exercise the 8-bit
range, so the type is embedded as an unbounded integer. -/
abbrev TokenType := Int

/-- token.go: `TokenTypeError TokenType = -2`. -/
def TokenTypeError : TokenType := -2

/-- token.go: `TokenTypeEOF = -1`. -/
def TokenTypeEOF : TokenType := -1

/-- token.go: `defaultToken` — a token type together with its string value
(the value is a list of runes). -/
structure Token where
  tokenType : TokenType
  value : List Rune
deriving DecidableEq, Repr

/-- Go `unicode.IsSpace`: the White_Space property, an explicit finite set
of code points. -/
def isSpaceRune (r : Rune) : Bool :=
  r == 9 || r == 10 || r == 11 || r == 12 || r == 13 || r == 32 ||
  r == 0x85 || r == 0xA0 || r == 0x1680 ||
  (0x2000 ≤ r && r ≤ 0x200A) ||
  r == 0x2028 || r == 0x2029 || r == 0x202F || r == 0x205F || r == 0x3000

/-- goblex.go: the `Lexer` struct (behavioural fields only; `Name`,
`Debug`, `logIndent` and the stored step functions are omitted, see the
header comment).  `ignoreTokens` is Go's `map[string]bool`, embedded as an
association list iterated in list order (Go's map iteration order is
unspecified; the spec flags this as an open question).  `tokensClosed`
records whether `close(lxr.tokens)` has been called. -/
structure Lexer where
  autoEatWhitespace : Bool
  ignoreTokens : List (List Rune × Bool)
  input : List Rune
  tokens : List Token
  tokensClosed : Bool
  tokenBuffer : List Rune
  currentRune : Rune
  lastKnownToken : List Rune
  runeCache : List Rune
deriving DecidableEq, Repr

/-- goblex.go `Lexer.read`: pop the lookahead cache first, else read a
fresh rune from the input buffer; at end of input set and return
`RuneEOF`. -/
def read (l : Lexer) : Rune × Lexer :=
  match l.runeCache with
  | ch :: rest => (ch, { l with runeCache := rest, currentRune := ch })
  | [] =>
    match l.input with
    | ch :: rest => (ch, { l with input := rest, currentRune := ch })
    | [] => (RuneEOF, { l with currentRune := RuneEOF })

/-- Iterated `read`, discarding the returned runes (the
`for i := 0; i < numRunes; i++ { lxr.read() }` pattern). -/
def readN : Nat → Lexer → Lexer
  | 0, l => l
  | n + 1, l => readN n (read l).2

/-- The loop of goblex.go `Lexer.peek`: for each of `numRunes` iterations
pop the front of the cache if nonempty, else read a fresh rune; runes
obtained without error are appended to `readBuf` (returned first) while
the remaining cache and input are returned alongside.  Note that the
source appends `readBuf` — including runes popped from the cache itself —
to the back of what is left of the cache. -/
def peekLoop : Nat → List Rune → List Rune → List Rune × List Rune × List Rune
  | 0, cache, input => ([], cache, input)
  | n + 1, ch :: cache, input =>
    let r := peekLoop n cache input
    (ch :: r.1, r.2.1, r.2.2)
  | n + 1, [], ch :: input =>
    let r := peekLoop n [] input
    (ch :: r.1, r.2.1, r.2.2)
  | _ + 1, [], [] => ([], [], [])

/-- goblex.go `Lexer.peek`: returns the peeked runes and appends them to
the back of the remaining cache (`lxr.runeCache = append(lxr.runeCache,
readBuf...)`). -/
def peek (numRunes : Nat) (l : Lexer) : List Rune × Lexer :=
  let r := peekLoop numRunes l.runeCache l.input
  (r.1, { l with runeCache := r.2.1 ++ r.1, input := r.2.2 })

/-- goblex.go `Lexer.IsEOF`. -/
def IsEOF (l : Lexer) : Bool :=
  l.currentRune == RuneEOF

/-- The candidate scan of goblex.go `Lexer.CurrentTokenIsOneOf`: blank
candidates are skipped; for each candidate the first rune is compared with
`currentRune` and the rest with `peek (len - 1)` (which mutates the
cache); the first full match wins. -/
def ctioGo : List (List Rune) → Lexer → (Bool × List Rune) × Lexer
  | [], l => ((false, []), l)
  | tkn :: rest, l =>
    match tkn with
    | [] => ctioGo rest l
    | t0 :: ts =>
      if t0 ≠ l.currentRune then ctioGo rest l
      else
        let numPeeks := ts.length
        let pr := if numPeeks > 0 then
            let p := peek numPeeks l
            (l.currentRune :: p.1, p.2)
          else ([l.currentRune], l)
        if tkn = pr.1 then ((true, tkn), pr.2) else ctioGo rest pr.2

/-- goblex.go `Lexer.CurrentTokenIsOneOf`: `(false, "")` at end of input,
otherwise the in-order candidate scan. -/
def CurrentTokenIsOneOf (tokens : List (List Rune)) (l : Lexer) :
    (Bool × List Rune) × Lexer :=
  if l.currentRune == RuneEOF then ((false, []), l)
  else ctioGo tokens l

/-- goblex.go `Lexer.CurrentTokenIs`: the single-candidate form. -/
def CurrentTokenIs (t : List Rune) (l : Lexer) : Bool × Lexer :=
  let r := CurrentTokenIsOneOf [t] l
  (r.1.1, r.2)

/-- The range loop of goblex.go `Lexer.skipIgnores`: find the first
enabled ignore literal matching at the current position and read exactly
past its length. -/
def siGo : List (List Rune × Bool) → Lexer → Bool × Lexer
  | [], l => (false, l)
  | (ignore, doit) :: rest, l =>
    if doit then
      let r := CurrentTokenIs ignore l
      if r.1 then (true, readN ignore.length r.2) else siGo rest r.2
    else siGo rest l

/-- goblex.go `Lexer.skipIgnores`. -/
def skipIgnores (l : Lexer) : Bool × Lexer :=
  if l.currentRune == RuneEOF then (false, l)
  else siGo l.ignoreTokens l

/-- The read loop of goblex.go `Lexer.EatWhitespace`: keep reading while
the current rune is whitespace; report false when end of input is hit. -/
def eatWSGo : Nat → Lexer → Bool × Lexer
  | 0, l => (false, l)
  | n + 1, l =>
    let l1 := (read l).2
    if l1.currentRune == RuneEOF then (false, l1)
    else if ¬ isSpaceRune l1.currentRune then (true, l1)
    else eatWSGo n l1

/-- goblex.go `Lexer.EatWhitespace`: false without reading when the
current rune is not whitespace, else the read loop.  Each continuing
iteration consumes a cached or fresh rune, so the fuel
`cache + input + 1` is never exhausted. -/
def EatWhitespace (l : Lexer) : Bool × Lexer :=
  if ¬ isSpaceRune l.currentRune then (false, l)
  else eatWSGo (l.runeCache.length + l.input.length + 1) l

/-- The inner terminator scan of goblex.go `Lexer.CaptureUntilOneOf`:
first non-blank candidate that `CurrentTokenIs` accepts (state is threaded
through the lookahead of each test). -/
def scanTokens : List (List Rune) → Lexer → List Rune × Lexer
  | [], l => ([], l)
  | tkn :: rest, l =>
    if tkn = [] then scanTokens rest l
    else
      let r := CurrentTokenIs tkn l
      if r.1 then (tkn, r.2) else scanTokens rest r.2

/-- The main loop of goblex.go `Lexer.CaptureUntilOneOf`.  Every exit of
the source loop is followed by `lxr.lastKnownToken = foundToken`; the
unreachable fuel-exhaustion branch mirrors the end-of-input exit. -/
def cuLoop (skipWhitespace : Bool) (tokens : List (List Rune)) :
    Nat → Lexer → List Rune × Lexer
  | 0, l => ([], { l with lastKnownToken := [] })
  | n + 1, l =>
    let ws := if skipWhitespace then EatWhitespace l else (false, l)
    if ws.1 then cuLoop skipWhitespace tokens n ws.2
    else
      let l0 := ws.2
      let ch := l0.currentRune
      if ch == RuneEOF then ([], { l0 with lastKnownToken := [] })
      else
        let ig := skipIgnores l0
        if ig.1 then cuLoop skipWhitespace tokens n ig.2
        else
          let sc := scanTokens tokens ig.2
          if sc.1 ≠ [] then (sc.1, { sc.2 with lastKnownToken := sc.1 })
          else
            let l3 := { sc.2 with tokenBuffer := sc.2.tokenBuffer ++ [ch] }
            cuLoop skipWhitespace tokens n (read l3).2

/-- goblex.go `Lexer.CaptureUntilOneOf`: returns `""` immediately on an
empty terminator list or at end of input (leaving `lastKnownToken`
untouched), else runs the capture loop. -/
def CaptureUntilOneOf (skipWhitespace : Bool) (tokens : List (List Rune))
    (l : Lexer) : List Rune × Lexer :=
  if tokens.length < 1 || l.currentRune == RuneEOF then ([], l)
  else cuLoop skipWhitespace tokens (l.runeCache.length + l.input.length + 2) l

/-- goblex.go `Lexer.CaptureUntil`: false immediately for the empty
terminator, else delegates to `CaptureUntilOneOf` with one terminator. -/
def CaptureUntil (skipWhitespace : Bool) (untilTok : List Rune) (l : Lexer) :
    Bool × Lexer :=
  if untilTok = [] then (false, l)
  else
    let r := CaptureUntilOneOf skipWhitespace [untilTok] l
    (r.1 ≠ [], r.2)

/-- The write-read loop of goblex.go `Lexer.ConsumeCurrentToken`: read a
rune and append it to the capture buffer, `n` times. -/
def consumeReads : Nat → Lexer → Lexer
  | 0, l => l
  | n + 1, l =>
    let r := read l
    consumeReads n { r.2 with tokenBuffer := r.2.tokenBuffer ++ [r.1] }

/-- The trailing `for lxr.skipIgnores() { if AutoEatWhitespace {
EatWhitespace() } }` loop shared by consume/skip. -/
def skipIgnoresLoop : Nat → Lexer → Lexer
  | 0, l => l
  | n + 1, l =>
    let r := skipIgnores l
    if r.1 then
      let l1 := if r.2.autoEatWhitespace then (EatWhitespace r.2).2 else r.2
      skipIgnoresLoop n l1
    else r.2

/-- The post-advance whitespace/ignore eating shared by
`ConsumeCurrentToken` and `SkipCurrentToken`. -/
def autoEatPost (l : Lexer) : Lexer :=
  let l1 := if l.autoEatWhitespace then (EatWhitespace l).2 else l
  skipIgnoresLoop (l1.runeCache.length + l1.input.length + 2) l1

/-- goblex.go `Lexer.ConsumeCurrentToken`: guard (empty last-known token,
re-validation via `CurrentTokenIs`, end of input), optional buffer reset,
write the current rune, read-and-write the remaining `len - 1` runes, one
final read, then the auto-eat post-processing. -/
def ConsumeCurrentToken (clearPrevious : Bool) (l : Lexer) : Bool × Lexer :=
  if l.lastKnownToken = [] then (false, l)
  else
    let v := CurrentTokenIs l.lastKnownToken l
    if ¬ v.1 then (false, v.2)
    else if v.2.currentRune == RuneEOF then (false, v.2)
    else
      let l1 := if clearPrevious then { v.2 with tokenBuffer := [] } else v.2
      let l2 := { l1 with tokenBuffer := l1.tokenBuffer ++ [l1.currentRune] }
      let l3 := consumeReads (l.lastKnownToken.length - 1) l2
      (true, autoEatPost (read l3).2)

/-- goblex.go `Lexer.SkipCurrentToken`: same guard (the source evaluates
`CurrentTokenIs` before testing `lastKnownToken` for emptiness), then
reads exactly `len` runes discarding them, then the auto-eat
post-processing. -/
def SkipCurrentToken (clearPrevious : Bool) (l : Lexer) : Bool × Lexer :=
  let v := CurrentTokenIs l.lastKnownToken l
  if l.lastKnownToken = [] ∨ ¬ v.1 ∨ v.2.currentRune == RuneEOF then (false, v.2)
  else
    let l1 := if clearPrevious then { v.2 with tokenBuffer := [] } else v.2
    let l2 := readN l.lastKnownToken.length l1
    (true, autoEatPost l2)

/-- goblex.go `NewLexer`: `make(chan Token, 3)` — the emission channel
capacity. -/
def tokensCapacity : Nat := 3

/-- goblex.go `Lexer.Emit`: send a token built from the capture buffer,
then reset the buffer.  A send on a full channel blocks forever while a
step function is running (no concurrent receiver), modelled by `none`. -/
def Emit (tokenType : TokenType) (l : Lexer) : Option Lexer :=
  if l.tokens.length < tokensCapacity then
    some { l with tokens := l.tokens ++ [⟨tokenType, l.tokenBuffer⟩],
                  tokenBuffer := [] }
  else none

/-- goblex.go `Lexer.EmitToken`: send an already-built token without
touching the capture buffer; blocking modelled as for `Emit`. -/
def EmitToken (token : Token) (l : Lexer) : Option Lexer :=
  if l.tokens.length < tokensCapacity then
    some { l with tokens := l.tokens ++ [token] }
  else none

/-- goblex.go `Lexer.Errorf`: send an error token carrying the formatted
message (embedded as the already-formatted rune list) and return the
terminal step; blocking modelled as for `Emit`. -/
def Errorf (msg : List Rune) (l : Lexer) : Option Lexer :=
  if l.tokens.length < tokensCapacity then
    some { l with tokens := l.tokens ++ [⟨TokenTypeError, msg⟩] }
  else none

/-- goblex.go `NewLexer` (behavioural fields): defaults plus the priming
`l.read()`. -/
def NewLexer (input : List Rune) : Lexer :=
  (read { autoEatWhitespace := true, ignoreTokens := [], input := input,
          tokens := [], tokensClosed := false, tokenBuffer := [],
          currentRune := 0, lastKnownToken := [], runeCache := [] }).2

/-- goblex.go `Lexer.shutdown`: `close(lxr.tokens)` and nothing else. -/
def shutdown (l : Lexer) : Lexer :=
  { l with tokensClosed := true }

/-- The `for state := lxr.begin; state != nil` loop of goblex.go
`Lexer.Run`, over an abstract step-name type `σ` with interpretation `F`
(see the header comment); `none` when the chain has not reached the
terminal marker within `fuel` invocations. -/
def runLoop {σ : Type} (F : σ → Lexer → Lexer × Option σ) :
    Nat → Option σ → Lexer → Option Lexer
  | _, none, l => some l
  | 0, some _, _ => none
  | n + 1, some s, l =>
    let r := F s l
    runLoop F n r.2 r.1

/-- goblex.go `Lexer.Run`: iterate the chain from the entry step until the
terminal marker, then `shutdown`. -/
def Run {σ : Type} (F : σ → Lexer → Lexer × Option σ) (begin : Option σ)
    (fuel : Nat) (l : Lexer) : Option Lexer :=
  (runLoop F fuel begin l).map shutdown

/-- A cursor operation: a single `read` or a `peek n` (the only operations
that touch the cursor fields `currentRune`, `runeCache`, `input`). -/
inductive CursorOp : Type
  | rd : CursorOp
  | pk : Nat → CursorOp
deriving DecidableEq, Repr

/-- Apply one cursor operation. -/
def applyOp : CursorOp → Lexer → Lexer
  | .rd, l => (read l).2
  | .pk n, l => (peek n l).2

/-- Apply a sequence of cursor operations, oldest first. -/
def applyOps (ops : List CursorOp) (l : Lexer) : Lexer :=
  ops.foldl (fun l op => applyOp op l) l

/-- The runes of a string literal, for writing concrete inputs. -/
def runesOf (s : String) : List Rune :=
  s.data.map Char.toNat

/-- `b` differs from `a` at most in a reshuffle between the lookahead
cache and the unread input: every other field is unchanged and the total
number of pending runes is preserved.  This is the claim's own reading of
"no side effects (no Cursor advance, no Capture Buffer change)". -/
def Untouched (a b : Lexer) : Prop :=
  b.currentRune = a.currentRune ∧ b.tokenBuffer = a.tokenBuffer ∧
  b.lastKnownToken = a.lastKnownToken ∧ b.tokens = a.tokens ∧
  b.tokensClosed = a.tokensClosed ∧ b.ignoreTokens = a.ignoreTokens ∧
  b.autoEatWhitespace = a.autoEatWhitespace ∧
  b.runeCache.length + b.input.length = a.runeCache.length + a.input.length

/-- Invariant of cursors fed from a NUL-free source: no pending rune is
the sentinel, and the sentinel is current only when nothing is pending. -/
def CursorInv (l : Lexer) : Prop :=
  (0 ∉ l.runeCache ∧ 0 ∉ l.input) ∧
  (l.currentRune = 0 → l.runeCache = [] ∧ l.input = [])

/-! ## Helper lemmas -/

/-- Closed form of the peek loop: it pops the first `n` cached runes, then
reads the next `n - cache.length` input runes. -/
theorem peekLoop_eq : ∀ (n : Nat) (cache input : List Rune),
    peekLoop n cache input =
      (cache.take n ++ input.take (n - cache.length), cache.drop n,
        input.drop (n - cache.length)) := by
  intro n
  induction n with
  | zero => intro cache input; simp [peekLoop]
  | succ n ih =>
    intro cache input
    cases cache with
    | cons ch cache => simp [peekLoop, ih]
    | nil =>
      cases input with
      | nil => simp [peekLoop]
      | cons ch input => simp [peekLoop, ih]

theorem Untouched.rfl (l : Lexer) : Untouched l l := by
  simp [Untouched]

theorem Untouched.trans {a b c : Lexer} (h1 : Untouched a b)
    (h2 : Untouched b c) : Untouched a c := by
  obtain ⟨h1a, h1b, h1c, h1d, h1e, h1f, h1g, h1h⟩ := h1
  obtain ⟨h2a, h2b, h2c, h2d, h2e, h2f, h2g, h2h⟩ := h2
  exact ⟨h2a.trans h1a, h2b.trans h1b, h2c.trans h1c, h2d.trans h1d,
    h2e.trans h1e, h2f.trans h1f, h2g.trans h1g, h2h.trans h1h⟩

/-- `peek` moves runes between the cache and the input but touches nothing
else and preserves the number of pending runes. -/
theorem peek_untouched (n : Nat) (l : Lexer) : Untouched l (peek n l).2 := by
  simp [peek, peekLoop_eq, Untouched, List.length_append, List.length_take,
    List.length_drop]
  omega

theorem ctioGo_untouched : ∀ (toks : List (List Rune)) (l : Lexer),
    Untouched l (ctioGo toks l).2 := by
  intro toks
  induction toks with
  | nil => intro l; exact Untouched.rfl l
  | cons tkn rest ih =>
    intro l
    simp only [ctioGo]
    cases tkn with
    | nil => exact ih l
    | cons t0 ts =>
      by_cases h : t0 ≠ l.currentRune
      · simp only [if_pos h]; exact ih l
      · simp only [if_neg h]
        by_cases hp : ts.length > 0
        · simp only [if_pos hp]
          split
          · exact peek_untouched ts.length l
          · exact Untouched.trans (peek_untouched ts.length l) (ih _)
        · simp only [if_neg hp]
          split
          · exact Untouched.rfl l
          · exact ih l

theorem currentTokenIsOneOf_untouched (toks : List (List Rune)) (l : Lexer) :
    Untouched l (CurrentTokenIsOneOf toks l).2 := by
  simp only [CurrentTokenIsOneOf]
  split
  · exact Untouched.rfl l
  · exact ctioGo_untouched toks l

theorem currentTokenIs_untouched (t : List Rune) (l : Lexer) :
    Untouched l (CurrentTokenIs t l).2 :=
  currentTokenIsOneOf_untouched [t] l

/-- The candidate scan leaves the current rune in place. -/
theorem currentTokenIs_currentRune (t : List Rune) (l : Lexer) :
    (CurrentTokenIs t l).2.currentRune = l.currentRune :=
  (currentTokenIs_untouched t l).1

/-- `NewLexer` on a nonempty input primes the cursor with the first rune. -/
theorem newLexer_cons (c : Rune) (rest : List Rune) :
    NewLexer (c :: rest) =
      { autoEatWhitespace := true, ignoreTokens := [], input := rest,
        tokens := [], tokensClosed := false, tokenBuffer := [],
        currentRune := c, lastKnownToken := [], runeCache := [] } := rfl

/-- Advancing over a prefix of a freshly constructed lexer reaches the
state freshly constructed on the rest of the input. -/
theorem applyOps_replicate_rd : ∀ (s1 s2 : List Rune), s2 ≠ [] →
    applyOps (List.replicate s1.length CursorOp.rd) (NewLexer (s1 ++ s2)) =
      NewLexer s2 := by
  intro s1
  induction s1 with
  | nil => intro s2 h; simp [applyOps]
  | cons c t ih =>
    intro s2 h
    obtain ⟨d, r, hdr⟩ : ∃ d r, t ++ s2 = d :: r := by
      cases hts : t ++ s2 with
      | nil =>
        rcases List.append_eq_nil.mp hts with ⟨-, h2⟩
        exact absurd h2 h
      | cons d r => exact ⟨d, r, rfl⟩
    have hstep : applyOp CursorOp.rd (NewLexer ((c :: t) ++ s2)) = NewLexer (t ++ s2) := by
      rw [List.cons_append, newLexer_cons, hdr, newLexer_cons]
      simp [applyOp, read]
    calc applyOps (List.replicate (c :: t).length CursorOp.rd) (NewLexer ((c :: t) ++ s2))
        = applyOps (List.replicate t.length CursorOp.rd)
            (applyOp CursorOp.rd (NewLexer ((c :: t) ++ s2))) := by
          simp [applyOps, List.replicate_succ]
      _ = applyOps (List.replicate t.length CursorOp.rd) (NewLexer (t ++ s2)) := by
          rw [hstep]
      _ = NewLexer s2 := ih s2 h

/-! ## Claim theorems -/

/-- C1: the claim states that peek(n) followed by n advances reproduces the
peeked sequence exactly, also across repeated peeks of differing n.  The
source violates this: `peek` re-appends runes popped from the cache to the
BACK of the cache, so after peek(2) has cached y,z on input "xyzw", a
peek(1) returns y but leaves the cache as z,y — the following advance
yields z, not the peeked y. -/
theorem peek_replay_order_violated :
    (peek 2 (NewLexer (runesOf "xyzw"))).1 = runesOf "yz" ∧
    (peek 1 (peek 2 (NewLexer (runesOf "xyzw"))).2).1 = runesOf "y" ∧
    (read (peek 1 (peek 2 (NewLexer (runesOf "xyzw"))).2).2).1 = Char.toNat 'z' ∧
    runesOf "y" ≠ [Char.toNat 'z'] := by decide

/-- C3 counterexample: a terminator list containing only a blank string is
NOT rejected by the guard (`len(tokens) < 1` is false): the loop runs,
reads the whole remaining input "ab" and writes it to the capture buffer,
contradicting the claim's "returns no-match without reading any input and
the Capture Buffer is left unchanged". -/
theorem captureUntilOneOf_blank_terminator_reads_input :
    (CaptureUntilOneOf false [[]] (NewLexer (runesOf "ab"))).1 = [] ∧
    (CaptureUntilOneOf false [[]] (NewLexer (runesOf "ab"))).2.tokenBuffer =
      runesOf "ab" ∧
    (NewLexer (runesOf "ab")).tokenBuffer = [] ∧
    (CaptureUntilOneOf false [[]] (NewLexer (runesOf "ab"))).2.input = [] ∧
    (NewLexer (runesOf "ab")).input ≠ [] := by decide

/-- C3 amended: for the EMPTY terminator list (captureUntilOneOf) and the
empty-string terminator (captureUntil), the call returns no-match without
reading any input and leaves the whole lexer state — in particular the
Capture Buffer — unchanged. -/
theorem captureUntil_empty_terminators_no_effect (skipWS : Bool) (l : Lexer) :
    CaptureUntilOneOf skipWS [] l = ([], l) ∧
    CaptureUntil skipWS [] l = (false, l) := by
  constructor
  · simp [CaptureUntilOneOf]
  · simp [CaptureUntil]

/-- C5 counterexample: on input "some #text!" the values the claim states
are wrong: with skipWhitespace=false the emitted value is "some #text",
not "some text"; with skipWhitespace=true it is "some#text", not
"sometext" (the space-stripped version of the claimed value).  The '#' is
neither a terminator nor ignored, so it is buffered. -/
theorem captureUntil_scenario_spec_values_wrong :
    (Emit 1 (CaptureUntil false (runesOf "!") (NewLexer (runesOf "some #text!"))).2).map
        (fun l => l.tokens.map Token.value) ≠ some [runesOf "some text"] ∧
    (Emit 1 (CaptureUntil true (runesOf "!") (NewLexer (runesOf "some #text!"))).2).map
        (fun l => l.tokens.map Token.value) ≠ some [runesOf "sometext"] := by decide

/-- C5 amended: on input "some #text!" with captureUntil(skipWhitespace,
"!") then emit, the emitted value is "some#text" when skipWhitespace=true
and "some #text" when skipWhitespace=false: the two differ exactly by the
whitespace (filtering whitespace out of the false-case value yields the
true-case value), so the flag only suppresses whitespace from being
buffered and never strips non-whitespace symbols such as '#'. -/
theorem captureUntil_skipWhitespace_scenario :
    (CaptureUntil true (runesOf "!") (NewLexer (runesOf "some #text!"))).1 = true ∧
    (Emit 1 (CaptureUntil true (runesOf "!") (NewLexer (runesOf "some #text!"))).2).map
        (fun l => l.tokens.map Token.value) = some [runesOf "some#text"] ∧
    (Emit 1 (CaptureUntil false (runesOf "!") (NewLexer (runesOf "some #text!"))).2).map
        (fun l => l.tokens.map Token.value) = some [runesOf "some #text"] ∧
    (runesOf "some #text").filter (fun r => ! isSpaceRune r) = runesOf "some#text" := by
  decide

/-- C8: on the fresh input "xyzw", none of the candidates "xab", "xw",
"xz" matches at the current position, yet CurrentTokenIsOneOf reports a
match on "xz": the failed test of "xab" caches y,z, the failed test of
"xw" pops y and re-appends it BEHIND z, and the test of "xz" then peeks
the reordered cache.  This contradicts the claimed (and documented)
contract that a candidate wins only if its full literal matches at the
current position. -/
theorem currentTokenIsOneOf_order_contract_violated :
    (CurrentTokenIsOneOf [runesOf "xab", runesOf "xw", runesOf "xz"]
      (NewLexer (runesOf "xyzw"))).1 = (true, runesOf "xz") ∧
    ([runesOf "xab", runesOf "xw", runesOf "xz"].all
      (fun c => (runesOf "xyzw").take c.length != c)) = true := by decide

/-- C10: the end-of-input sentinel is the rune 0, so when a NUL character
of the input text becomes current, the lexer is at end-of-input even
though further symbols remain in the source: IsEOF is true and
capture-until calls return no-match without reading. -/
theorem nul_rune_treated_as_eof (s1 s2 : List Rune) (skipWS : Bool)
    (toks : List (List Rune)) (u : List Rune) :
    IsEOF (applyOps (List.replicate s1.length CursorOp.rd)
      (NewLexer (s1 ++ 0 :: s2))) = true ∧
    (applyOps (List.replicate s1.length CursorOp.rd)
      (NewLexer (s1 ++ 0 :: s2))).input = s2 ∧
    CaptureUntilOneOf skipWS toks (applyOps (List.replicate s1.length CursorOp.rd)
        (NewLexer (s1 ++ 0 :: s2))) =
      ([], applyOps (List.replicate s1.length CursorOp.rd)
        (NewLexer (s1 ++ 0 :: s2))) ∧
    CaptureUntil skipWS u (applyOps (List.replicate s1.length CursorOp.rd)
        (NewLexer (s1 ++ 0 :: s2))) =
      (false, applyOps (List.replicate s1.length CursorOp.rd)
        (NewLexer (s1 ++ 0 :: s2))) := by
  have h := applyOps_replicate_rd s1 (0 :: s2) (by simp)
  rw [h, newLexer_cons]
  refine ⟨rfl, rfl, ?_, ?_⟩
  · simp [CaptureUntilOneOf, RuneEOF]
  · by_cases hu : u = []
    · simp [CaptureUntil, hu]
    · simp [CaptureUntil, hu, CaptureUntilOneOf, RuneEOF]

/-- C9: the emission channel is created with capacity 3; Emit, EmitToken
and Errorf complete exactly when fewer than 3 tokens are queued (a send on
a full channel blocks forever while a step runs, modelled by none), the
queue never exceeds 3 tokens, and a step that emits a 4th token before
yielding is stuck. -/
theorem emission_channel_capacity_three :
    tokensCapacity = 3 ∧
    (∀ s : List Rune, (NewLexer s).tokens = []) ∧
    (∀ (t : TokenType) (l : Lexer),
      (Emit t l).isSome = decide (l.tokens.length < tokensCapacity)) ∧
    (∀ (tok : Token) (l : Lexer),
      (EmitToken tok l).isSome = decide (l.tokens.length < tokensCapacity)) ∧
    (∀ (msg : List Rune) (l : Lexer),
      (Errorf msg l).isSome = decide (l.tokens.length < tokensCapacity)) ∧
    (∀ (t : TokenType) (l : Lexer),
      (Emit t l).elim True (fun l2 => l2.tokens.length ≤ tokensCapacity)) ∧
    (((Emit 1 (NewLexer [])).bind (Emit 1) |>.bind (Emit 1)).isSome = true) ∧
    (((Emit 1 (NewLexer [])).bind (Emit 1) |>.bind (Emit 1) |>.bind (Emit 1)) =
      none) := by
  refine ⟨rfl, ?_, ?_, ?_, ?_, ?_, by decide, by decide⟩
  · intro s; cases s <;> rfl
  · intro t l; unfold Emit; split <;> simp_all
  · intro tok l; unfold EmitToken; split <;> simp_all
  · intro msg l; unfold Errorf; split <;> simp_all
  · intro t l
    unfold Emit
    split
    · simp only [Option.elim_some]
      simp only [List.length_append, List.length_singleton]
      omega
    · simp

/-- Every exit path of the capture-until loop stores the returned token in
`lastKnownToken`. -/
theorem cuLoop_sets_lastKnownToken (skipWS : Bool) (toks : List (List Rune)) :
    ∀ (fuel : Nat) (l : Lexer),
      (cuLoop skipWS toks fuel l).2.lastKnownToken =
        (cuLoop skipWS toks fuel l).1 := by
  intro fuel
  induction fuel with
  | zero => intro l; simp [cuLoop]
  | succ n ih =>
    intro l
    simp only [cuLoop]
    repeat' split
    all_goals first
      | exact ih _
      | simp

/-- C2 counterexample: a capture-until search on "a#" finds "#", the
token is skipped reaching end-of-input, and a NEW capture-until call made
at end-of-input returns early WITHOUT clearing or overwriting the stale
Last-Matched-Literal "#" — contradicting the claim that every call,
including calls at end-of-input, clears or overwrites it. -/
theorem captureUntilOneOf_stale_lastKnownToken :
    IsEOF (SkipCurrentToken false
      (CaptureUntilOneOf true [runesOf "#"] (NewLexer (runesOf "a#"))).2).2 = true ∧
    (CaptureUntilOneOf true [runesOf "x"]
      (SkipCurrentToken false
        (CaptureUntilOneOf true [runesOf "#"]
          (NewLexer (runesOf "a#"))).2).2).2.lastKnownToken = runesOf "#" ∧
    runesOf "#" ≠ [] := by decide

/-- A capture-until call that passes the entry guard runs the capture
loop. -/
theorem captureUntilOneOf_guard_false {skipWS : Bool} {toks : List (List Rune)}
    {l : Lexer} (h1 : toks ≠ []) (h2 : l.currentRune ≠ RuneEOF) :
    CaptureUntilOneOf skipWS toks l =
      cuLoop skipWS toks (l.runeCache.length + l.input.length + 2) l := by
  have hcond : ¬ ((decide (toks.length < 1) || (l.currentRune == RuneEOF)) = true) := by
    simp only [Bool.or_eq_true, decide_eq_true_eq, beq_iff_eq]
    rintro (hl | he)
    · cases toks with
      | nil => exact h1 rfl
      | cons a b => simp at hl
    · exact h2 he
  unfold CaptureUntilOneOf
  rw [if_neg hcond]

/-- C2 amended: a capture-until call that passes the entry guard (nonempty
terminator list, not at end-of-input) always overwrites the
Last-Matched-Literal with the terminator it found — the empty string when
none was found; calls with an empty terminator list or made at
end-of-input return early and leave the whole state, the stale
Last-Matched-Literal included, unchanged. -/
theorem captureUntil_lastKnownToken_contract (skipWS : Bool)
    (toks : List (List Rune)) (l : Lexer) :
    (toks ≠ [] → l.currentRune ≠ RuneEOF →
      (CaptureUntilOneOf skipWS toks l).2.lastKnownToken =
        (CaptureUntilOneOf skipWS toks l).1) ∧
    (toks = [] ∨ l.currentRune = RuneEOF →
      CaptureUntilOneOf skipWS toks l = ([], l)) ∧
    (∀ u : List Rune, u ≠ [] → l.currentRune ≠ RuneEOF →
      (CaptureUntil skipWS u l).1 =
        decide ((CaptureUntil skipWS u l).2.lastKnownToken ≠ [])) := by
  refine ⟨?_, ?_, ?_⟩
  · intro h1 h2
    rw [captureUntilOneOf_guard_false h1 h2]
    exact cuLoop_sets_lastKnownToken skipWS toks _ l
  · intro h
    rcases h with h | h
    · simp [CaptureUntilOneOf, h]
    · simp [CaptureUntilOneOf, h, RuneEOF]
  · intro u hu h2
    simp only [CaptureUntil, if_neg hu]
    rw [captureUntilOneOf_guard_false (by simp) h2]
    simp only [cuLoop_sets_lastKnownToken skipWS [u]]

/-- Witness for the capture-until Last-Matched-Literal contract at a
concrete guard-passing call. -/
theorem captureUntil_lastKnownToken_contract_w :
    (CaptureUntilOneOf true [runesOf "#"] (NewLexer (runesOf "a#"))).2.lastKnownToken =
      (CaptureUntilOneOf true [runesOf "#"] (NewLexer (runesOf "a#"))).1 :=
  (captureUntil_lastKnownToken_contract true [runesOf "#"]
    (NewLexer (runesOf "a#"))).1 (by decide) (by decide)

/-- C4 counterexample: a one-step chain that immediately returns the
terminal marker on input "abc": Run closes the channel but the input is
NOT drained and the lexer is NOT at end-of-input afterwards, contradicting
the claimed shutdown behaviour. -/
theorem run_does_not_drain_input :
    (Run (fun (_ : Unit) (l : Lexer) => (l, none)) (some ()) 1
        (NewLexer (runesOf "abc"))).map
      (fun l => (l.tokensClosed, IsEOF l, l.input)) =
      some (true, false, runesOf "bc") ∧
    runesOf "bc" ≠ [] := by decide

/-- C4 amended: Run invokes step functions until one returns the terminal
marker and then performs shutdown, which closes the Emission Channel and
changes nothing else: input, cursor, capture buffer, queued tokens and
Last-Matched-Literal are exactly those left by the step chain. -/
theorem run_shutdown_only_closes {σ : Type} (F : σ → Lexer → Lexer × Option σ)
    (begin : Option σ) (fuel : Nat) (l l2 : Lexer)
    (h : Run F begin fuel l = some l2) :
    l2.tokensClosed = true ∧
    ∃ l0, runLoop F fuel begin l = some l0 ∧ l2 = shutdown l0 ∧
      l2.input = l0.input ∧ l2.currentRune = l0.currentRune ∧
      l2.runeCache = l0.runeCache ∧ l2.tokenBuffer = l0.tokenBuffer ∧
      l2.tokens = l0.tokens ∧ l2.lastKnownToken = l0.lastKnownToken := by
  unfold Run at h
  cases hr : runLoop F fuel begin l with
  | none => rw [hr] at h; simp at h
  | some l0 =>
    rw [hr] at h
    simp only [Option.map_some'] at h
    cases h
    exact ⟨rfl, l0, rfl, rfl, rfl, rfl, rfl, rfl, rfl, rfl⟩

/-- Witness for the Run/shutdown theorem at a concrete one-step chain. -/
theorem run_shutdown_only_closes_w :
    (shutdown (NewLexer (runesOf "abc"))).tokensClosed = true :=
  (run_shutdown_only_closes (fun (_ : Unit) (l : Lexer) => (l, none)) (some ()) 1
    (NewLexer (runesOf "abc")) (shutdown (NewLexer (runesOf "abc"))) rfl).1

/-- `read` when the cache is nonempty: pop its front. -/
theorem read_cons_cache {l : Lexer} {ch : Rune} {rest : List Rune}
    (h : l.runeCache = ch :: rest) :
    read l = (ch, { l with runeCache := rest, currentRune := ch }) := by
  unfold read
  rw [h]

/-- `read` when the cache is empty and input remains: pop the input. -/
theorem read_cons_input {l : Lexer} {ch : Rune} {rest : List Rune}
    (hc : l.runeCache = []) (h : l.input = ch :: rest) :
    read l = (ch, { l with input := rest, currentRune := ch }) := by
  unfold read
  rw [hc, h]

/-- `read` at end of input: the sentinel becomes (and stays) current. -/
theorem read_at_eof {l : Lexer} (hc : l.runeCache = []) (hi : l.input = []) :
    read l = (RuneEOF, { l with currentRune := RuneEOF }) := by
  unfold read
  rw [hc, hi]

/-- `read` preserves the NUL-free cursor invariant. -/
theorem cursorInv_read {l : Lexer} (h : CursorInv l) : CursorInv (read l).2 := by
  obtain ⟨⟨hc, hi⟩, himp⟩ := h
  cases hrc : l.runeCache with
  | cons ch rest =>
    rw [read_cons_cache hrc]
    rw [hrc] at hc
    refine ⟨⟨fun hm => hc (List.mem_cons_of_mem ch hm), hi⟩, fun h0 => ?_⟩
    have h0' : ch = 0 := h0
    exact absurd (h0' ▸ List.mem_cons_self ch rest) hc
  | nil =>
    cases hin : l.input with
    | cons ch rest =>
      rw [read_cons_input hrc hin]
      rw [hin] at hi
      refine ⟨⟨by simpa using hc, fun hm => hi (List.mem_cons_of_mem ch hm)⟩,
        fun h0 => ?_⟩
      have h0' : ch = 0 := h0
      exact absurd (h0' ▸ List.mem_cons_self ch rest) hi
    | nil =>
      rw [read_at_eof hrc hin]
      exact ⟨⟨by simpa using hc, by simpa using hi⟩, fun _ => ⟨hrc, hin⟩⟩

/-- `peek` preserves the NUL-free cursor invariant. -/
theorem cursorInv_peek {l : Lexer} (n : Nat) (h : CursorInv l) :
    CursorInv (peek n l).2 := by
  obtain ⟨⟨hc, hi⟩, himp⟩ := h
  refine ⟨⟨?_, ?_⟩, ?_⟩
  · intro hmem
    simp only [peek, peekLoop_eq, List.mem_append] at hmem
    rcases hmem with h1 | h2 | h3
    · exact hc (List.drop_subset _ _ h1)
    · exact hc (List.take_subset _ _ h2)
    · exact hi (List.take_subset _ _ h3)
  · intro hmem
    simp only [peek, peekLoop_eq] at hmem
    exact hi (List.drop_subset _ _ hmem)
  · intro h0
    have h0' : l.currentRune = 0 := h0
    obtain ⟨hce, hie⟩ := himp h0'
    simp [peek, peekLoop_eq, hce, hie]

/-- Cursor operations preserve the invariant, and once the sentinel is
current it stays current. -/
theorem applyOps_inv_eof : ∀ (ops : List CursorOp) (l : Lexer), CursorInv l →
    CursorInv (applyOps ops l) ∧
    (l.currentRune = 0 → (applyOps ops l).currentRune = 0) := by
  intro ops
  induction ops with
  | nil => intro l h; exact ⟨h, fun h0 => h0⟩
  | cons op rest ih =>
    intro l h
    have hstep : applyOps (op :: rest) l = applyOps rest (applyOp op l) := by
      simp [applyOps]
    rw [hstep]
    cases op with
    | rd =>
      have h1 := cursorInv_read h
      have h2 := ih _ h1
      refine ⟨h2.1, fun h0 => h2.2 ?_⟩
      obtain ⟨hce, hie⟩ := h.2 h0
      simp [applyOp, read, hce, hie, RuneEOF]
    | pk n =>
      have h1 := cursorInv_peek n h
      have h2 := ih _ h1
      refine ⟨h2.1, fun h0 => h2.2 ?_⟩
      simpa [applyOp, peek] using h0

/-- A lexer freshly constructed from a NUL-free input satisfies the cursor
invariant. -/
theorem cursorInv_newLexer {input : List Rune} (h : 0 ∉ input) :
    CursorInv (NewLexer input) := by
  cases input with
  | nil => exact ⟨⟨by simp [NewLexer, read], by simp [NewLexer, read]⟩,
      fun _ => ⟨rfl, rfl⟩⟩
  | cons c rest =>
    rw [newLexer_cons]
    refine ⟨⟨by simp, fun hm => h (List.mem_cons_of_mem c hm)⟩, fun h0 => ?_⟩
    exact absurd (h0 ▸ List.mem_cons_self c rest) h

/-- C6 counterexample: the input may itself contain the rune 0 (a NUL
character); there IsEOF becomes true although symbols remain to deliver,
and a further advance makes it false again — neither the "false until
truly no more symbols" half nor the permanence half of the claim holds for
all inputs. -/
theorem isEOF_not_permanent_on_nul :
    IsEOF (NewLexer [0, 97]) = true ∧
    (NewLexer [0, 97]).input = [97] ∧
    (NewLexer [0, 97]).input ≠ [] ∧
    IsEOF (read (NewLexer [0, 97])).2 = false := by decide

/-- C6 amended: for every input that contains no NUL character, whenever
IsEOF is true no undelivered symbols remain (cache and input are
exhausted), and once IsEOF is true it remains true across every further
sequence of cursor operations. -/
theorem isEOF_exhaustion_contract (input : List Rune) (h : 0 ∉ input)
    (ops : List CursorOp) :
    (IsEOF (applyOps ops (NewLexer input)) = true →
      (applyOps ops (NewLexer input)).runeCache = [] ∧
      (applyOps ops (NewLexer input)).input = []) ∧
    (IsEOF (applyOps ops (NewLexer input)) = true →
      ∀ ops2, IsEOF (applyOps ops2 (applyOps ops (NewLexer input))) = true) := by
  have hinv := (applyOps_inv_eof ops (NewLexer input) (cursorInv_newLexer h)).1
  constructor
  · intro he
    exact hinv.2 (by simpa [IsEOF, RuneEOF] using he)
  · intro he ops2
    have h0 : (applyOps ops (NewLexer input)).currentRune = 0 := by
      simpa [IsEOF, RuneEOF] using he
    have h2 := (applyOps_inv_eof ops2 _ hinv).2 h0
    simp [IsEOF, RuneEOF, h2]

/-- Witness for the amended end-of-input contract on the NUL-free input
"a" after one advance. -/
theorem isEOF_exhaustion_contract_w :
    (applyOps [CursorOp.rd] (NewLexer [97])).input = [] ∧
    IsEOF (applyOps [CursorOp.rd]
      (applyOps [CursorOp.rd] (NewLexer [97]))) = true :=
  ⟨((isEOF_exhaustion_contract [97] (by decide) [CursorOp.rd]).1 (by decide)).2,
   (isEOF_exhaustion_contract [97] (by decide) [CursorOp.rd]).2 (by decide)
     [CursorOp.rd]⟩

/-- Matching the empty literal always fails, leaving the state unchanged
(blank candidates are skipped by the scan). -/
theorem currentTokenIs_nil (l : Lexer) : CurrentTokenIs [] l = (false, l) := by
  unfold CurrentTokenIs CurrentTokenIsOneOf
  split
  · rfl
  · rfl

/-- `skipIgnores` with no configured ignore literals reports false and
changes nothing. -/
theorem skipIgnores_no_ignores {l : Lexer} (h : l.ignoreTokens = []) :
    skipIgnores l = (false, l) := by
  unfold skipIgnores
  rw [h]
  split
  · rfl
  · rfl

/-- The trailing skip-ignores loop is the identity when no ignore literals
are configured. -/
theorem skipIgnoresLoop_no_ignores : ∀ (n : Nat) {l : Lexer},
    l.ignoreTokens = [] → skipIgnoresLoop n l = l := by
  intro n l h
  cases n with
  | zero => rfl
  | succ m => simp [skipIgnoresLoop, skipIgnores_no_ignores h]

/-- The consume/skip post-processing is the identity when auto-eat is
disabled and no ignore literals are configured. -/
theorem autoEatPost_id {l : Lexer} (hae : l.autoEatWhitespace = false)
    (hig : l.ignoreTokens = []) : autoEatPost l = l := by
  unfold autoEatPost
  rw [hae]
  simp [skipIgnoresLoop_no_ignores, hig]

/-- The read-and-buffer loop of consume pops exactly the cache contents,
appending them to the capture buffer; the last popped rune stays
current. -/
theorem consumeReads_drains_cache : ∀ (ts : List Rune) (l : Lexer),
    l.runeCache = ts →
    consumeReads ts.length l =
      { l with runeCache := [], tokenBuffer := l.tokenBuffer ++ ts,
               currentRune := ts.getLastD l.currentRune } := by
  intro ts
  induction ts with
  | nil =>
    intro l h
    cases l
    simp_all [consumeReads]
  | cons b ts ih =>
    intro l h
    obtain ⟨aew, ign, inp, tks, tc, tb, cur, lkt, rc⟩ := l
    simp only at h
    subst h
    simp only [List.length_cons, consumeReads, read]
    rw [ih _ rfl]
    rw [show (tb ++ [b]) ++ ts = tb ++ (b :: ts) from by simp]
    simp [List.getLastD]
    cases ts with
    | nil => rfl
    | cons a as => exact (List.getLast_cons_cons b a as).symm

/-- The discard loop of skip pops exactly the cache contents; the last
popped rune stays current. -/
theorem readN_drains_cache : ∀ (ts : List Rune) (l : Lexer),
    l.runeCache = ts →
    readN ts.length l =
      { l with runeCache := [], currentRune := ts.getLastD l.currentRune } := by
  intro ts
  induction ts with
  | nil =>
    intro l h
    cases l
    simp_all [readN]
  | cons b ts ih =>
    intro l h
    obtain ⟨aew, ign, inp, tks, tc, tb, cur, lkt, rc⟩ := l
    simp only at h
    subst h
    simp only [List.length_cons, readN, read]
    rw [ih _ rfl]
    simp [List.getLastD]
    cases ts with
    | nil => rfl
    | cons a as => exact (List.getLast_cons_cons b a as).symm

/-- When the cache is empty and the literal is present at the current
position, the match engine reports the hit, leaving the literal's
remaining runes cached. -/
theorem currentTokenIsOneOf_hit {l : Lexer} {t0 : Rune} {ts : List Rune}
    (hc : l.runeCache = []) (hcur : l.currentRune = t0) (h0 : t0 ≠ 0)
    (hpre : l.input.take ts.length = ts) :
    CurrentTokenIsOneOf [t0 :: ts] l =
      ((true, t0 :: ts),
        { l with runeCache := ts, input := l.input.drop ts.length }) := by
  obtain ⟨aew, ign, inp, tks, tc, tb, cur, lkt, rc⟩ := l
  simp only at hc hcur hpre
  subst hc hcur
  cases ts with
  | nil => simp [CurrentTokenIsOneOf, ctioGo, RuneEOF, h0]
  | cons b ts2 =>
    simp only [List.length_cons] at hpre
    simp [CurrentTokenIsOneOf, ctioGo, RuneEOF, h0, peek, peekLoop_eq, hpre]

/-- Guard-failure evaluation of consume: empty Last-Matched-Literal. -/
theorem consumeCurrentToken_no_token {cp : Bool} {l : Lexer}
    (h : l.lastKnownToken = []) :
    ConsumeCurrentToken cp l = (false, l) ∧
    SkipCurrentToken cp l = (false, l) := by
  constructor
  · unfold ConsumeCurrentToken
    rw [if_pos h]
  · unfold SkipCurrentToken
    rw [h, currentTokenIs_nil]
    simp

/-- Guard-failure evaluation of consume: re-validation failed. -/
theorem consumeCurrentToken_fail_eq {cp : Bool} {l : Lexer}
    (hlkt : l.lastKnownToken ≠ [])
    (h : (CurrentTokenIs l.lastKnownToken l).1 = false) :
    ConsumeCurrentToken cp l = (false, (CurrentTokenIs l.lastKnownToken l).2) := by
  unfold ConsumeCurrentToken
  rw [if_neg hlkt]
  simp [h]

/-- Guard-failure evaluation of skip: re-validation failed. -/
theorem skipCurrentToken_fail_eq {cp : Bool} {l : Lexer}
    (h : (CurrentTokenIs l.lastKnownToken l).1 = false) :
    SkipCurrentToken cp l = (false, (CurrentTokenIs l.lastKnownToken l).2) := by
  unfold SkipCurrentToken
  simp [h]

/-- On a failed guard both operations report false and leave the current
rune, buffer, literal, tokens and pending count unchanged. -/
theorem consume_skip_fail_untouched {cp : Bool} {l : Lexer}
    (h : (CurrentTokenIs l.lastKnownToken l).1 = false) :
    (ConsumeCurrentToken cp l).1 = false ∧ (SkipCurrentToken cp l).1 = false ∧
    Untouched l (ConsumeCurrentToken cp l).2 ∧
    Untouched l (SkipCurrentToken cp l).2 := by
  by_cases hlkt : l.lastKnownToken = []
  · obtain ⟨h1, h2⟩ := @consumeCurrentToken_no_token cp l hlkt
    rw [h1, h2]
    exact ⟨rfl, rfl, Untouched.rfl l, Untouched.rfl l⟩
  · rw [consumeCurrentToken_fail_eq hlkt h, skipCurrentToken_fail_eq h]
    exact ⟨rfl, rfl, currentTokenIs_untouched _ l, currentTokenIs_untouched _ l⟩

/-- `readN` splits along addition. -/
theorem readN_add : ∀ (a b : Nat) (l : Lexer),
    readN (a + b) l = readN b (readN a l) := by
  intro a
  induction a with
  | zero => intro b l; simp [readN]
  | succ a ih =>
    intro b l
    have hab : a + 1 + b = (a + b) + 1 := by omega
    rw [hab]
    simp only [readN]
    exact ih b (read l).2

/-- Successful consume from an empty cache with auto-eat disabled and no
ignore literals: the literal is appended to the buffer and the symbol
following the literal becomes current. -/
theorem consumeCurrentToken_success {cp : Bool} {l : Lexer} {t0 : Rune}
    {ts : List Rune} (hc : l.runeCache = []) (hig : l.ignoreTokens = [])
    (hae : l.autoEatWhitespace = false) (hlkt : l.lastKnownToken = t0 :: ts)
    (hcur : l.currentRune = t0) (h0 : t0 ≠ 0)
    (hpre : l.input.take ts.length = ts) :
    ConsumeCurrentToken cp l =
      (true, { l with
        tokenBuffer := (if cp then [] else l.tokenBuffer) ++ (t0 :: ts),
        currentRune := (l.input.drop ts.length).headD RuneEOF,
        runeCache := [],
        input := (l.input.drop ts.length).tail }) := by
  obtain ⟨aew, ign, inp, tks, tc, tb, cur, lkt, rc⟩ := l
  simp only at hc hig hae hlkt hcur hpre
  subst hc hig hae hlkt hcur
  have hv := @currentTokenIsOneOf_hit
    (Lexer.mk false [] inp tks tc tb cur (cur :: ts) [])
    cur ts rfl rfl h0 hpre
  unfold ConsumeCurrentToken
  rw [if_neg (by simp)]
  simp only [CurrentTokenIs, hv]
  rw [if_neg (by simp [RuneEOF, h0])]
  rw [if_neg (by simp [RuneEOF, h0])]
  simp only [List.length_cons, Nat.add_sub_cancel]
  cases cp with
  | true =>
    rw [if_pos rfl]
    rw [consumeReads_drains_cache ts _ rfl]
    cases hdrop : inp.drop ts.length with
    | nil => simp [hdrop, read, autoEatPost_id]
    | cons d r => simp [hdrop, read, autoEatPost_id]
  | false =>
    rw [if_neg (by simp)]
    rw [consumeReads_drains_cache ts _ rfl]
    cases hdrop : inp.drop ts.length with
    | nil => simp [hdrop, read, autoEatPost_id]
    | cons d r => simp [hdrop, read, autoEatPost_id]

/-- Successful skip from an empty cache with auto-eat disabled and no
ignore literals: the literal is discarded and the symbol following it
becomes current. -/
theorem skipCurrentToken_success {cp : Bool} {l : Lexer} {t0 : Rune}
    {ts : List Rune} (hc : l.runeCache = []) (hig : l.ignoreTokens = [])
    (hae : l.autoEatWhitespace = false) (hlkt : l.lastKnownToken = t0 :: ts)
    (hcur : l.currentRune = t0) (h0 : t0 ≠ 0)
    (hpre : l.input.take ts.length = ts) :
    SkipCurrentToken cp l =
      (true, { l with
        tokenBuffer := (if cp then [] else l.tokenBuffer),
        currentRune := (l.input.drop ts.length).headD RuneEOF,
        runeCache := [],
        input := (l.input.drop ts.length).tail }) := by
  obtain ⟨aew, ign, inp, tks, tc, tb, cur, lkt, rc⟩ := l
  simp only at hc hig hae hlkt hcur hpre
  subst hc hig hae hlkt hcur
  have hv := @currentTokenIsOneOf_hit
    (Lexer.mk false [] inp tks tc tb cur (cur :: ts) [])
    cur ts rfl rfl h0 hpre
  unfold SkipCurrentToken
  simp only [CurrentTokenIs, hv]
  rw [if_neg (by simp [RuneEOF, h0])]
  simp only [List.length_cons]
  cases cp with
  | true =>
    rw [if_pos rfl]
    rw [readN_add ts.length 1]
    rw [readN_drains_cache ts _ rfl]
    simp only [readN]
    cases hdrop : inp.drop ts.length with
    | nil => simp [hdrop, read, autoEatPost_id]
    | cons d r => simp [hdrop, read, autoEatPost_id]
  | false =>
    rw [if_neg (by simp)]
    rw [readN_add ts.length 1]
    rw [readN_drains_cache ts _ rfl]
    simp only [readN]
    cases hdrop : inp.drop ts.length with
    | nil => simp [hdrop, read, autoEatPost_id]
    | cons d r => simp [hdrop, read, autoEatPost_id]

/-- C7 counterexample: on input "a# x" a capture-until search finds "#"
with the cursor on it and " x" remaining; skipCurrentToken succeeds but —
auto-eat being enabled by default — the Cursor ends on the x: the space
after the literal was consumed as well, so the cursor did NOT advance
exactly past the matched literal as the claim states. -/
theorem skipCurrentToken_autoEat_over_advance :
    (CaptureUntilOneOf false [runesOf "#"]
      (NewLexer (runesOf "a# x"))).2.currentRune = Char.toNat '#' ∧
    (CaptureUntilOneOf false [runesOf "#"]
      (NewLexer (runesOf "a# x"))).2.input = runesOf " x" ∧
    (SkipCurrentToken false (CaptureUntilOneOf false [runesOf "#"]
      (NewLexer (runesOf "a# x"))).2).1 = true ∧
    (SkipCurrentToken false (CaptureUntilOneOf false [runesOf "#"]
      (NewLexer (runesOf "a# x"))).2).2.currentRune = Char.toNat 'x' ∧
    Char.toNat 'x' ≠ Char.toNat ' ' := by decide

/-- C7 amended: consumeCurrentToken and skipCurrentToken return false
whenever the Last-Matched-Literal is absent or fails re-validation at the
current position (including at end-of-input), leaving the current symbol,
capture buffer, literal, token queue and pending-symbol count unchanged;
on success, from a state with an empty lookahead cache, auto-eat disabled
and no ignore literals, they advance the Cursor exactly past the matched
literal — the symbol following the literal becomes current — buffering the
literal (consume) or discarding it (skip). -/
theorem consume_skip_current_token_contract :
    (∀ (cp : Bool) (l : Lexer), l.lastKnownToken = [] →
      ConsumeCurrentToken cp l = (false, l) ∧
      SkipCurrentToken cp l = (false, l)) ∧
    (∀ (cp : Bool) (l : Lexer), (CurrentTokenIs l.lastKnownToken l).1 = false →
      (ConsumeCurrentToken cp l).1 = false ∧ (SkipCurrentToken cp l).1 = false ∧
      Untouched l (ConsumeCurrentToken cp l).2 ∧
      Untouched l (SkipCurrentToken cp l).2) ∧
    (∀ (cp : Bool) (l : Lexer) (t0 : Rune) (ts : List Rune),
      l.runeCache = [] → l.ignoreTokens = [] → l.autoEatWhitespace = false →
      l.lastKnownToken = t0 :: ts → l.currentRune = t0 → t0 ≠ 0 →
      l.input.take ts.length = ts →
      ConsumeCurrentToken cp l =
        (true, { l with
          tokenBuffer := (if cp then [] else l.tokenBuffer) ++ (t0 :: ts),
          currentRune := (l.input.drop ts.length).headD RuneEOF,
          runeCache := [],
          input := (l.input.drop ts.length).tail }) ∧
      SkipCurrentToken cp l =
        (true, { l with
          tokenBuffer := (if cp then [] else l.tokenBuffer),
          currentRune := (l.input.drop ts.length).headD RuneEOF,
          runeCache := [],
          input := (l.input.drop ts.length).tail })) :=
  ⟨fun _ _ h => consumeCurrentToken_no_token h,
   fun _ _ h => consume_skip_fail_untouched h,
   fun _ _ _ _ hc hig hae hlkt hcur h0 hpre =>
     ⟨consumeCurrentToken_success hc hig hae hlkt hcur h0 hpre,
      skipCurrentToken_success hc hig hae hlkt hcur h0 hpre⟩⟩

/-- Witness for the consume/skip contract: a no-literal state, a
failed-re-validation state, and a concrete successful consume. -/
theorem consume_skip_current_token_contract_w :
    ConsumeCurrentToken false (NewLexer (runesOf "ab")) =
      (false, NewLexer (runesOf "ab")) ∧
    (SkipCurrentToken true (Lexer.mk true [] [] [] false [] 97 [35] [])).1 =
      false ∧
    ConsumeCurrentToken true (Lexer.mk false [] [98, 120] [] false [] 35
      [35, 98] []) =
      (true, Lexer.mk false [] [] [] false [35, 98] 120 [35, 98] []) :=
  ⟨(consume_skip_current_token_contract.1 false (NewLexer (runesOf "ab"))
      (by decide)).1,
   (consume_skip_current_token_contract.2.1 true
      (Lexer.mk true [] [] [] false [] 97 [35] []) (by decide)).2.1,
   (consume_skip_current_token_contract.2.2 true
      (Lexer.mk false [] [98, 120] [] false [] 35 [35, 98] []) 35 [98]
      rfl rfl rfl rfl rfl (by decide) (by decide)).1⟩

end goblex
